import Mathlib

/-!
Verification of the YouTube-Batch-Analyzer comment collection engine.

The definitions below are a shallow embedding of the repository's Python
sources:
  * `ApiScraper`   embeds `youtube_api_scraper.py` (`_safe_execute`,
    `fetch_comments_for_video`);
  * `DomScraper`   embeds `selenium_scraper.py` (`extract_comments_detailed`);
  * `Batch`        embeds `youtube_comment_scraper.py` (`run_engine_for_url`,
    `run_batch_with_engine`).
External effects (HTTP pages, rendered DOM snapshots, file contents) are
passed in as explicit data; everything else follows the source line by line.
-/

namespace ApiScraper

/-- An error raised by one `request.execute()` attempt: either an `HttpError`
carrying an optional status code, or any other exception (network etc.). -/
inductive ApiErr where
  | http (status : Option Nat)
  | other
deriving DecidableEq

/-- The outcome of `_safe_execute`: a non-retryable error is re-raised, or
the `YouTubeAPIError("Max retries exceeded for API request")` is raised. -/
inductive FetchErr where
  | apiErr (e : ApiErr)
  | maxRetriesExceeded
deriving DecidableEq

/-- The retry test of `_safe_execute`: an `HttpError` with status 403, 429 or
5xx is retried, any non-`HttpError` exception is retried, everything else is
re-raised.  (`status in (403, 429) or (status and 500 <= int(status) < 600)`;
a missing status is falsy.) -/
def retryable : ApiErr → Bool
  | .http (some st) => st = 403 || st = 429 || (500 ≤ st && st < 600)
  | .http none => false
  | .other => true

/-- One backoff sleep of `_safe_execute`: `min(60, delay * (2 ** attempt))`
seconds, with `delay` never reassigned from `initial_delay`. -/
def backoffWait (initial_delay attempt : Nat) : Nat :=
  min 60 (initial_delay * 2 ^ attempt)

/-- The retry loop of `_safe_execute`.  `op i` is the outcome of the i-th
`request.execute()` attempt; `remaining` counts the attempts left in
`range(max_retries)`.  Returns the final outcome together with the total
seconds slept. -/
def safeExecuteGo (op : Nat → Except ApiErr α) (initial_delay : Nat) :
    Nat → Nat → Except FetchErr α × Nat
  | _, 0 => (.error .maxRetriesExceeded, 0)
  | attempt, remaining + 1 =>
    match op attempt with
    | .ok v => (.ok v, 0)
    | .error e =>
      if retryable e then
        let rest := safeExecuteGo op initial_delay (attempt + 1) remaining
        (rest.1, backoffWait initial_delay attempt + rest.2)
      else
        (.error (.apiErr e), 0)

/-- `_safe_execute(request, max_retries=6, initial_delay=1.0)`: attempts the
operation up to `max_retries` times with exponential backoff. -/
def safeExecute (op : Nat → Except ApiErr α) (max_retries : Nat := 6)
    (initial_delay : Nat := 1) : Except FetchErr α × Nat :=
  safeExecuteGo op initial_delay 0 max_retries

/-- One reply of a comment thread, as read from the API payload:
`r.get('id')` and the fields of `r.get('snippet', {})`. -/
structure Reply where
  rid : Option String
  rauthor : Option String
  rtext : Option String
  rpublishedAt : Option String
  rlikeCount : Option Int
deriving DecidableEq

/-- One item of a `commentThreads.list` page: `thread.get('id')`, the
`topLevelComment` snippet fields, and `thread.get('replies', {}).get('comments', [])`. -/
structure Thread where
  threadId : Option String
  topId : Option String
  topAuthor : Option String
  topText : Option String
  topPublishedAt : Option String
  topLikeCount : Option Int
  replies : List Reply
deriving DecidableEq

/-- One page of a paginated `commentThreads.list` response:
`resp.get('items', [])` and `resp.get('nextPageToken')`. -/
structure Page where
  items : List Thread
  nextPageToken : Option String
deriving DecidableEq

/-- One collected comment record, with the keys built at lines 114-121 and
130-137 of `youtube_api_scraper.py`. -/
structure ApiRecord where
  comment_id : Option String
  author : Option String
  text : Option String
  published_at : Option String
  like_count : Option Int
  parent_id : Option String
deriving DecidableEq

/-- Python `a or b` on optional strings: `a` unless it is falsy
(`None` or the empty string). -/
def pyOrStr (a b : Option String) : Option String :=
  match a with
  | some s => if s = "" then b else some s
  | none => b

/-- Python truthiness of `next_page_token` (an absent or empty token is falsy). -/
def tokenTruthy : Option String → Bool
  | some s => s ≠ ""
  | none => false

/-- Python truthiness of `max_comments and fetched >= max_comments`
(`None` and `0` are falsy). -/
def capReached (max_comments : Option Nat) (fetched : Nat) : Bool :=
  match max_comments with
  | some m => m ≠ 0 && fetched ≥ m
  | none => false

/-- The top-level record built for a thread:
`'comment_id': top.get('id') or comment_id`, `'parent_id': None`. -/
def mkTopRecord (t : Thread) : ApiRecord :=
  { comment_id := pyOrStr t.topId t.threadId
    author := t.topAuthor
    text := t.topText
    published_at := t.topPublishedAt
    like_count := t.topLikeCount
    parent_id := none }

/-- The record built for a reply: `'parent_id': entry['comment_id']`. -/
def mkReplyRecord (pid : Option String) (r : Reply) : ApiRecord :=
  { comment_id := r.rid
    author := r.rauthor
    text := r.rtext
    published_at := r.rpublishedAt
    like_count := r.rlikeCount
    parent_id := pid }

/-- Python `xs[-n:]` for `n ≥ 1`: the last `n` elements of the list. -/
def tailSlice (n : Nat) (xs : List α) : List α :=
  xs.drop (xs.length - n)

/-- The loop state of `fetch_comments_for_video`: the in-memory `collected`
list, the `fetched` counter, and `saved`, the sequence of records appended to
the checkpoint file during this run. -/
structure FetchSt where
  collected : List ApiRecord
  fetched : Nat
  saved : List ApiRecord
deriving DecidableEq

/-- The body of `for thread in items` (lines 110-155): append the top-level
record; when `include_replies`, also append the reply records, run the
periodic checkpoint (`len(collected) % 50 == 0` flushes `collected[-50:]`),
and test the cap (which flushes `collected[-(fetched if fetched<50 else 50):]`
and returns early).  The `Bool` is `true` when the function returned. -/
def stepThread (include_replies ckpt : Bool) (max_comments : Option Nat)
    (st : FetchSt) (t : Thread) : FetchSt × Bool :=
  let entry := mkTopRecord t
  let col := st.collected ++ [entry]
  let f := st.fetched + 1
  if include_replies then
    let col := col ++ t.replies.map (mkReplyRecord entry.comment_id)
    let f := f + t.replies.length
    let saved :=
      if ckpt && col.length % 50 = 0 then st.saved ++ tailSlice 50 col
      else st.saved
    if capReached max_comments f then
      let saved :=
        if ckpt then saved ++ tailSlice (if f < 50 then f else 50) col
        else saved
      (⟨col, f, saved⟩, true)
    else (⟨col, f, saved⟩, false)
  else (⟨col, f, st.saved⟩, false)

/-- `for thread in items` over a whole page, stopping when the body returned. -/
def stepThreads (include_replies ckpt : Bool) (max_comments : Option Nat) :
    FetchSt → List Thread → FetchSt × Bool
  | st, [] => (st, false)
  | st, t :: ts =>
    let r := stepThread include_replies ckpt max_comments st t
    if r.2 then r
    else stepThreads include_replies ckpt max_comments r.1 ts

/-- The `while True` pagination loop (lines 100-159): process the page's
items, then follow `nextPageToken`; a falsy token breaks.  The `Bool` is
`true` when the loop ended through the early `return collected`. -/
def fetchPages (include_replies ckpt : Bool) (max_comments : Option Nat) :
    FetchSt → List Page → FetchSt × Bool
  | st, [] => (st, false)
  | st, p :: rest =>
    let r := stepThreads include_replies ckpt max_comments st p.items
    if r.2 then r
    else if tokenTruthy p.nextPageToken then
      fetchPages include_replies ckpt max_comments r.1 rest
    else (r.1, false)

/-- `fetch_comments_for_video`: `loaded` is the list of records read from an
existing checkpoint file, `pages` the successive API responses.  Returns the
`collected` list and the records appended to the checkpoint file.  After a
natural loop exit, the final checkpoint flush (lines 161-165) appends
`collected[-(len(collected) if len(collected)<50 else 50):]`. -/
def fetch_comments_for_video (include_replies : Bool) (max_comments : Option Nat)
    (ckpt : Bool) (loaded : List ApiRecord) (pages : List Page) :
    List ApiRecord × List ApiRecord :=
  let r := fetchPages include_replies ckpt max_comments ⟨loaded, 0, []⟩ pages
  if r.2 then (r.1.collected, r.1.saved)
  else
    let col := r.1.collected
    let saved :=
      if ckpt && col ≠ [] then
        r.1.saved ++ tailSlice (if col.length < 50 then col.length else 50) col
      else r.1.saved
    (col, saved)

/-- A request whose first two attempts hit HTTP 500 and whose third succeeds. -/
def retryTwiceOp : Nat → Except ApiErr Nat :=
  fun i => if i < 2 then .error (.http (some 500)) else .ok 42

/-- A request that hits HTTP 429 on every attempt. -/
def alwaysRateLimitedOp : Nat → Except ApiErr Nat :=
  fun _ => .error (.http (some 429))

/-- A request that fails with HTTP 400 (malformed request) on every attempt. -/
def badRequestOp : Nat → Except ApiErr Nat :=
  fun _ => .error (.http (some 400))

/-- A response page with two reply-free threads. -/
def twoThreadPage : Page :=
  { items := [⟨some "t1", some "c1", some "A", some "x", none, none, []⟩,
              ⟨some "t2", some "c2", some "B", some "y", none, none, []⟩]
    nextPageToken := none }

/-- One reply snippet, reused 50 times under `bigThread`. -/
def oneReply : Reply := ⟨some "r", some "B", some "z", none, none⟩

/-- A thread whose top-level comment carries 50 replies: processing it moves
`len(collected)` from 0 to 51 in one step. -/
def bigThread : Thread :=
  ⟨some "t1", some "top", some "A", some "x", none, none, List.replicate 50 oneReply⟩

/-- A single complete page holding only `bigThread`. -/
def bigThreadPage : Page := ⟨[bigThread], none⟩

/-- A record as loaded back from a checkpoint file. -/
def loadedRecord : ApiRecord := ⟨some "old", some "O", some "w", none, none, none⟩

/-- Claim C9, API side (stated from the spec's invariant): scanning the
output left to right with `tops` holding the `comment_id`s of the top-level
records seen so far, every record with a non-null `parent_id` must point at
one of them. -/
def ApiLinkedAux : List (Option String) → List ApiRecord → Prop
  | _, [] => True
  | tops, r :: rest =>
    (∀ p, r.parent_id = some p → some p ∈ tops) ∧
    ApiLinkedAux (if r.parent_id = none then r.comment_id :: tops else tops) rest

/-- Every reply record's `parent_id` refers to a top-level record emitted
earlier in the same sequence. -/
def ApiLinked (l : List ApiRecord) : Prop := ApiLinkedAux [] l

/-- The `comment_id`s of the top-level records of `l`, accumulated onto
`tops` (the scan state `ApiLinkedAux` threads through a list). -/
def apiTops (tops : List (Option String)) : List ApiRecord → List (Option String)
  | [] => tops
  | r :: rest => apiTops (if r.parent_id = none then r.comment_id :: tops else tops) rest

end ApiScraper

namespace DomScraper

/-- The fields extracted from one rendered `ytd-comment-renderer` after the
selector fallbacks of `selenium_scraper.py` ran (a failed extraction yields
the empty string). -/
structure DomComment where
  text : String
  author : String
  time : String
  likes : String
deriving DecidableEq

/-- One rendered comment thread: the top-level comment element (absent when
`thread.find_element('ytd-comment-renderer')` fails, which makes the loop
`continue`) and the reply elements revealed under it. -/
structure DomThread where
  top : Option DomComment
  replies : List DomComment
deriving DecidableEq

/-- One iteration's view of the page: the comment-thread elements found by
the re-scan and the `document.documentElement.scrollHeight` read after the
scroll at the end of the iteration. -/
structure DomStep where
  threads : List DomThread
  height : Int
deriving DecidableEq

/-- One record of `extract_comments_detailed`'s result list. -/
structure DomRecord where
  text : String
  author : String
  time : String
  likes : String
  is_reply : Bool
  parent : Option String
deriving DecidableEq

/-- The dedup fingerprint `(author, text[:120])`. -/
def fingerprint (author text : String) : String × String :=
  (author, text.take 120)

/-- The record appended for a top-level comment (lines 154-161). -/
def mkTopDom (c : DomComment) : DomRecord :=
  { text := c.text, author := c.author, time := c.time, likes := c.likes
    is_reply := false, parent := none }

/-- The record appended for a reply (lines 212-219): `'parent': text` is the
raw text of the thread's top-level comment. -/
def mkReplyDom (ptext : String) (c : DomComment) : DomRecord :=
  { text := c.text, author := c.author, time := c.time, likes := c.likes
    is_reply := true, parent := some ptext }

/-- `for r in reply_elems` (lines 184-222): skip fingerprints already seen,
otherwise record the fingerprint and append the reply record. -/
def procReplies (ptext : String) :
    List (String × String) → List DomRecord → List DomComment →
    List (String × String) × List DomRecord
  | seen, comments, [] => (seen, comments)
  | seen, comments, c :: cs =>
    let key := fingerprint c.author c.text
    if key ∈ seen then procReplies ptext seen comments cs
    else procReplies ptext (key :: seen) (comments ++ [mkReplyDom ptext c]) cs

/-- `for thread in thread_selectors` (lines 107-229): extract the top-level
comment (a missing element means `continue`), dedup it, append it, expand the
replies when requested, and `break` once `len(comments) >= max_comments`. -/
def procThreads (max_comments : Nat) (expand_replies : Bool) :
    List (String × String) → List DomRecord → List DomThread →
    List (String × String) × List DomRecord
  | seen, comments, [] => (seen, comments)
  | seen, comments, t :: ts =>
    match t.top with
    | none => procThreads max_comments expand_replies seen comments ts
    | some c =>
      let key := fingerprint c.author c.text
      if key ∈ seen then procThreads max_comments expand_replies seen comments ts
      else
        let seen := key :: seen
        let comments := comments ++ [mkTopDom c]
        let r :=
          if expand_replies then procReplies c.text seen comments t.replies
          else (seen, comments)
        if max_comments ≤ r.2.length then r
        else procThreads max_comments expand_replies r.1 r.2 ts

/-- The `while len(comments) < max_comments` loop (lines 100-241): process
the rendered threads, then scroll and feed the new page height to the
stagnation check (`stagnation >= 3` breaks).  Returns the comment list and
the iterations the loop never ran. -/
def extractLoop (max_comments : Nat) (expand_replies : Bool) :
    List (String × String) → List DomRecord → Int → Nat → List DomStep →
    List DomRecord × List DomStep
  | _, comments, _, _, [] => (comments, [])
  | seen, comments, last_height, stagnation, step :: rest =>
    if comments.length < max_comments then
      let r := procThreads max_comments expand_replies seen comments step.threads
      if step.height = last_height then
        if stagnation + 1 ≥ 3 then (r.2, rest)
        else extractLoop max_comments expand_replies r.1 r.2 last_height
          (stagnation + 1) rest
      else extractLoop max_comments expand_replies r.1 r.2 step.height 0 rest
    else (comments, step :: rest)

/-- `extract_comments_detailed(url, max_comments=500, ..., expand_replies=True)`:
`initial_height` is the `scrollHeight` read before the loop (line 97),
`steps` the successive page states the scrolling produces. -/
def extract_comments_detailed (max_comments : Nat) (expand_replies : Bool)
    (initial_height : Int) (steps : List DomStep) : List DomRecord :=
  (extractLoop max_comments expand_replies [] [] initial_height 0 steps).1

/-- The stagnation update shared by `extract_comments_detailed` (lines
235-241) and `scrape_video_with_selenium` (lines 122-128 of
`youtube_comment_scraper.py`): an unchanged height increments the counter,
a changed one records the new height and resets the counter. -/
def stagStep : Int × Nat → Int → Int × Nat
  | (last, count), h => if h = last then (last, count + 1) else (h, 0)

/-- The stagnation state after a sequence of height observations, starting
from the initial height with the counter at zero. -/
def stagFold (initial_height : Int) (obs : List Int) : Int × Nat :=
  obs.foldl stagStep (initial_height, 0)

/-- Helper for `trailRun`: walking a reversed observation list, count how
many leading adjacent pairs are equal. -/
def trailRunAux : Int → List Int → Nat
  | x, y :: r => if x = y then trailRunAux y r + 1 else 0
  | _, [] => 0

/-- Claim C8's measure, stated from the spec's words: the length of the
current (trailing) run of consecutive observations unchanged from their
predecessor. -/
def trailRun (l : List Int) : Nat :=
  match l.reverse with
  | [] => 0
  | x :: rest => trailRunAux x rest

/-- Claim C9, DOM side (stated from the spec's invariant): scanning the
output left to right with `tops` holding the raw texts of the top-level
records seen so far, every reply record's `parent` must be one of them. -/
def DomLinkedAux : List String → List DomRecord → Prop
  | _, [] => True
  | tops, r :: rest =>
    (r.is_reply = true → ∃ t ∈ tops, r.parent = some t) ∧
    DomLinkedAux (if r.is_reply then tops else r.text :: tops) rest

/-- Every reply record's `parent` is the raw text of a top-level record
emitted earlier in the same sequence. -/
def DomLinked (l : List DomRecord) : Prop := DomLinkedAux [] l

/-- The raw texts of the top-level records of `l`, accumulated onto `tops`
(the scan state `DomLinkedAux` threads through a list). -/
def domTops (tops : List String) : List DomRecord → List String
  | [] => tops
  | r :: rest => domTops (if r.is_reply then tops else r.text :: tops) rest

/-- How many records beyond its top-level comment a thread can contribute:
its reply count when replies are expanded, none otherwise. -/
def contribBound (expand_replies : Bool) (t : DomThread) : Nat :=
  if expand_replies then t.replies.length else 0

/-- A rendered thread holding a top-level comment and one reply. -/
def capThread : DomThread :=
  ⟨some ⟨"toptext", "A", "", ""⟩, [⟨"replytext", "B", "", ""⟩]⟩

/-- A single scroll iteration rendering only `capThread`. -/
def capStep : DomStep := ⟨[capThread], 5⟩

end DomScraper

namespace Batch

/-- The engine selector of `run_engine_for_url`: `'api'`, `'selenium'` or
`'both'`. -/
inductive Engine where
  | api
  | selenium
  | both
deriving DecidableEq

/-- An engine invocation for one URL either returns a list of comment texts
or raises, in which case the error message is captured. -/
abbrev EngineResult := Except String (List String)

/-- Lines 151-164 of `youtube_comment_scraper.py`: try the API engine when
the mode asks for it (a raise sets `last_error` and leaves `comments` empty),
then run the selenium engine when the mode is `'selenium'` or the mode is
`'both'` and `comments` is still empty. -/
def engineSelect (engine : Engine) (apiRes domRes : EngineResult) :
    List String × Option String :=
  let s1 : List String × Option String :=
    if engine = .api ∨ engine = .both then
      match apiRes with
      | .ok cs => (cs, none)
      | .error e => ([], some e)
    else ([], none)
  if engine = .selenium ∨ (engine = .both ∧ s1.1 = []) then
    match domRes with
    | .ok cs => (cs, s1.2)
    | .error e => ([], some e)
  else s1

/-- The condition of line 159: whether the selenium engine is invoked. -/
def domCond (engine : Engine) (apiRes : EngineResult) : Bool :=
  let s1 : List String × Option String :=
    if engine = .api ∨ engine = .both then
      match apiRes with
      | .ok cs => (cs, none)
      | .error e => ([], some e)
    else ([], none)
  engine = .selenium ∨ (engine = .both ∧ s1.1 = [])

/-- The placeholder cell written when no comments were collected (lines
172-176): the captured error text, or `"(no comments found)"`. -/
def placeholderCell : Option String → String
  | some e => "ERROR: " ++ e
  | none => "(no comments found)"

/-- The result of `run_engine_for_url` for one URL: the CSV rows appended to
the output file, the returned `len(comments)`, and whether the selenium
branch ran. -/
structure EngineOut where
  rows : List (String × String)
  count : Nat
  domInvoked : Bool
deriving DecidableEq

/-- `run_engine_for_url(url, engine, output_file, ...)`: select the
engine(s), then append one row per comment, or a single placeholder row when
`comments` is empty. -/
def run_engine_for_url (engine : Engine) (url : String)
    (apiRes domRes : EngineResult) : EngineOut :=
  let s := engineSelect engine apiRes domRes
  let rows :=
    if s.1 ≠ [] then s.1.map (fun c => (url, c))
    else [(url, placeholderCell s.2)]
  { rows := rows, count := s.1.length, domInvoked := domCond engine apiRes }

/-- The header row written by `run_batch_with_engine` (line 188). -/
def headerRow : String × String := ("video_url", "comment_or_error")

/-- The per-URL accumulation of `run_batch_with_engine`'s loop: append the
target's rows to the output file and add its count to the running total. -/
def batchStep (engine : Engine) (apiRes domRes : String → EngineResult)
    (acc : List (String × String) × Nat) (url : String) :
    List (String × String) × Nat :=
  let out := run_engine_for_url engine url (apiRes url) (domRes url)
  (acc.1 ++ out.rows, acc.2 + out.count)

/-- `run_batch_with_engine(urls, output_file, engine, ...)`: raise
`ValueError("No URLs provided")` on an empty list, otherwise write the header
row, process every URL in order, and return the final output-file content
together with the returned cumulative total. -/
def run_batch_with_engine (urls : List String) (engine : Engine)
    (apiRes domRes : String → EngineResult) :
    Except String (List (String × String) × Nat) :=
  if urls = [] then .error "No URLs provided"
  else .ok (urls.foldl (batchStep engine apiRes domRes) ([headerRow], 0))

/-- A stub API engine that raises on every target. -/
def failingApi : String → EngineResult := fun _ => .error "MissingCredential"

/-- A stub selenium engine: one comment for `u1`, a raise for every other
target. -/
def mixedDom : String → EngineResult :=
  fun u => if u = "u1" then .ok ["a"] else .error "boom"

end Batch

namespace ApiScraper

lemma safeExecuteGo_ok {α : Type} (op : Nat → Except ApiErr α) (d : Nat) (v : α) :
    ∀ (k att remaining : Nat), k < remaining →
    (∀ i, i < k → ∃ e, op (att + i) = .error e ∧ retryable e = true) →
    op (att + k) = .ok v →
    safeExecuteGo op d att remaining =
      (.ok v, ∑ i ∈ Finset.range k, backoffWait d (att + i)) := by
  intro k
  induction k with
  | zero =>
    intro att remaining hrem _ hok
    obtain ⟨r, rfl⟩ := Nat.exists_eq_succ_of_ne_zero (Nat.pos_iff_ne_zero.mp hrem)
    simp only [Nat.add_zero] at hok
    simp [safeExecuteGo, hok]
  | succ k ih =>
    intro att remaining hrem hfail hok
    obtain ⟨r, rfl⟩ := Nat.exists_eq_succ_of_ne_zero
      (Nat.pos_iff_ne_zero.mp (Nat.lt_of_le_of_lt (Nat.zero_le _) hrem))
    obtain ⟨e, he, hr⟩ := hfail 0 (Nat.succ_pos k)
    simp only [Nat.add_zero] at he
    have ih' := ih (att + 1) r (Nat.lt_of_succ_lt_succ hrem)
      (fun i hi => by
        obtain ⟨e', he', hr'⟩ := hfail (i + 1) (Nat.succ_lt_succ hi)
        exact ⟨e', by rw [← he']; congr 1; omega, hr'⟩)
      (by rw [← hok]; congr 1; omega)
    simp only [safeExecuteGo, he, hr, if_true, ih']
    refine Prod.ext rfl ?_
    simp only [Finset.sum_range_succ']
    simp only [Nat.add_zero]
    rw [Nat.add_comm]
    congr 1
    exact Finset.sum_congr rfl (fun i _ => by congr 1; omega)

lemma safeExecuteGo_allFail {α : Type} (op : Nat → Except ApiErr α) (d : Nat) :
    ∀ (remaining att : Nat),
    (∀ i, i < remaining → ∃ e, op (att + i) = .error e ∧ retryable e = true) →
    (safeExecuteGo op d att remaining).1 = .error .maxRetriesExceeded := by
  intro remaining
  induction remaining with
  | zero => intro att _; rfl
  | succ r ih =>
    intro att hfail
    obtain ⟨e, he, hr⟩ := hfail 0 (Nat.succ_pos r)
    simp only [Nat.add_zero] at he
    have := ih (att + 1) (fun i hi => by
      obtain ⟨e', he', hr'⟩ := hfail (i + 1) (Nat.succ_lt_succ hi)
      exact ⟨e', by rw [← he']; congr 1; omega, hr'⟩)
    simp [safeExecuteGo, he, hr, this]

/-- C4: an operation that fails retryably on its first `k` attempts and
succeeds on attempt `k + 1` (with `k < max_retries`) makes `_safe_execute`
return the success value with a total sleep of
`∑ i < k, min(60, initial_delay * 2^i)`; an operation whose `max_retries`
attempts all fail retryably makes it raise `Max retries exceeded`. -/
theorem C4_backoff_executor :
    (∀ (α : Type) (op : Nat → Except ApiErr α) (max_retries initial_delay k : Nat)
      (v : α), k < max_retries →
      (∀ i, i < k → ∃ e, op i = .error e ∧ retryable e = true) →
      op k = .ok v →
      safeExecute op max_retries initial_delay =
        (.ok v, ∑ i ∈ Finset.range k, min 60 (initial_delay * 2 ^ i))) ∧
    (∀ (α : Type) (op : Nat → Except ApiErr α) (max_retries initial_delay : Nat),
      (∀ i, i < max_retries → ∃ e, op i = .error e ∧ retryable e = true) →
      (safeExecute op max_retries initial_delay).1 = .error .maxRetriesExceeded) := by
  constructor
  · intro α op max_retries initial_delay k v hk hfail hok
    have := safeExecuteGo_ok op initial_delay v k 0 max_retries hk
      (fun i hi => by simpa using hfail i hi) (by simpa using hok)
    simpa [safeExecute, backoffWait] using this
  · intro α op max_retries initial_delay hfail
    exact safeExecuteGo_allFail op initial_delay max_retries 0
      (fun i hi => by simpa using hfail i hi)

/-- Witness for C4: with the default `max_retries = 6`, `initial_delay = 1`,
two retryable failures then success yield the value after 1 + 2 = 3 seconds
of sleep, and six retryable failures raise `Max retries exceeded`. -/
theorem C4_backoff_executor_witness :
    safeExecute retryTwiceOp 6 1 = (.ok 42, 3) ∧
    (safeExecute alwaysRateLimitedOp 6 1).1 = .error .maxRetriesExceeded := by
  constructor
  · have h := C4_backoff_executor.1 Nat retryTwiceOp 6 1 2 42 (by decide)
      (fun i hi => ⟨.http (some 500), by
        have : i = 0 ∨ i = 1 := by omega
        rcases this with h | h <;> subst h <;> exact ⟨rfl, rfl⟩⟩)
      rfl
    simpa [Finset.sum_range_succ] using h
  · exact C4_backoff_executor.2 Nat alwaysRateLimitedOp 6 1
      (fun i _ => ⟨.http (some 429), rfl, rfl⟩)

/-- C5: a failure the retry test rejects (no rate-limit, no 5xx, not a
transport error — e.g. a 400 or 401 `HttpError`) is propagated by
`_safe_execute` at once: the error is re-raised unchanged, no time is slept,
and the outcome does not depend on any later attempt. -/
theorem C5_non_retryable_propagates :
    ∀ (α : Type) (op : Nat → Except ApiErr α) (max_retries initial_delay : Nat)
      (e : ApiErr), 0 < max_retries → op 0 = .error e → retryable e = false →
      safeExecute op max_retries initial_delay = (.error (.apiErr e), 0) := by
  intro α op max_retries initial_delay e hmr hop hret
  obtain ⟨r, rfl⟩ := Nat.exists_eq_succ_of_ne_zero (Nat.pos_iff_ne_zero.mp hmr)
  simp [safeExecute, safeExecuteGo, hop, hret]

/-- Witness for C5: an HTTP 400 failure is re-raised immediately with zero
sleep under the default retry budget. -/
theorem C5_non_retryable_propagates_witness :
    safeExecute badRequestOp 6 1 = (.error (.apiErr (.http (some 400))), 0) :=
  C5_non_retryable_propagates Nat badRequestOp 6 1 (.http (some 400))
    (by decide) rfl rfl

/-- C1 (code bug): with `max_comments = 1` on a page of two comments, the
fetch returns both records when `include_replies = False` — the cap test at
line 148 sits inside the `if include_replies:` block, so the loop never
terminates early — while the same call with `include_replies = True` stops
at one record as documented. -/
theorem C1_cap_not_enforced_without_replies :
    (fetch_comments_for_video false (some 1) false [] [twoThreadPage]).1.length = 2 ∧
    (fetch_comments_for_video true (some 1) false [] [twoThreadPage]).1.length = 1 := by
  decide

/-- C3 (code bug): a completed, uninterrupted run over one thread carrying 50
replies collects 51 records but appends only the last 50 of them to the
checkpoint file: the top-level record is never persisted, because the
periodic flush fires only when `len(collected)` is an exact multiple of 50
and the final flush writes only `collected[-50:]`. -/
theorem C3_completed_run_omits_checkpoint_records :
    (fetch_comments_for_video true none true [] [bigThreadPage]).1.length = 51 ∧
    (fetch_comments_for_video true none true [] [bigThreadPage]).2 =
      (fetch_comments_for_video true none true [] [bigThreadPage]).1.drop 1 ∧
    (fetch_comments_for_video true none true [] [bigThreadPage]).1.head? =
      some (mkTopRecord bigThread) ∧
    mkTopRecord bigThread ∉ (fetch_comments_for_video true none true [] [bigThreadPage]).2 := by
  decide

lemma stepThread_shift (ir ck : Bool) (mc : Option Nat) (st₁ st₂ : FetchSt)
    (hf : st₁.fetched = st₂.fetched) (t : Thread) :
    ∃ D, (stepThread ir ck mc st₁ t).1.collected = st₁.collected ++ D ∧
      (stepThread ir ck mc st₂ t).1.collected = st₂.collected ++ D ∧
      (stepThread ir ck mc st₁ t).1.fetched = (stepThread ir ck mc st₂ t).1.fetched ∧
      (stepThread ir ck mc st₁ t).2 = (stepThread ir ck mc st₂ t).2 := by
  obtain ⟨c, f, s⟩ := st₁
  obtain ⟨c₂, f₂, s₂⟩ := st₂
  simp only at hf
  subst hf
  cases ir with
  | false =>
    exact ⟨[mkTopRecord t], by simp [stepThread], by simp [stepThread],
      by simp [stepThread], by simp [stepThread]⟩
  | true =>
    refine ⟨mkTopRecord t :: t.replies.map (mkReplyRecord (mkTopRecord t).comment_id),
      ?_, ?_, ?_, ?_⟩ <;>
      by_cases hcap : capReached mc (f + 1 + t.replies.length) = true <;>
        simp [stepThread, hcap]

lemma stepThreads_shift (ir ck : Bool) (mc : Option Nat) :
    ∀ (ts : List Thread) (st₁ st₂ : FetchSt), st₁.fetched = st₂.fetched →
    ∃ D, (stepThreads ir ck mc st₁ ts).1.collected = st₁.collected ++ D ∧
      (stepThreads ir ck mc st₂ ts).1.collected = st₂.collected ++ D ∧
      (stepThreads ir ck mc st₁ ts).1.fetched = (stepThreads ir ck mc st₂ ts).1.fetched ∧
      (stepThreads ir ck mc st₁ ts).2 = (stepThreads ir ck mc st₂ ts).2 := by
  intro ts
  induction ts with
  | nil =>
    intro st₁ st₂ hf
    exact ⟨[], by simp [stepThreads], by simp [stepThreads], by simp [stepThreads, hf],
      by simp [stepThreads]⟩
  | cons t ts ih =>
    intro st₁ st₂ hf
    obtain ⟨D, h1, h2, hfe, hb⟩ := stepThread_shift ir ck mc st₁ st₂ hf t
    by_cases hdone : (stepThread ir ck mc st₁ t).2 = true
    · have hdone₂ : (stepThread ir ck mc st₂ t).2 = true := by rw [← hb]; exact hdone
      exact ⟨D, by simp [stepThreads, hdone, h1], by simp [stepThreads, hdone₂, h2],
        by simp [stepThreads, hdone, hdone₂, hfe], by simp [stepThreads, hdone, hdone₂]⟩
    · have hdone₂ : ¬(stepThread ir ck mc st₂ t).2 = true := by rw [← hb]; exact hdone
      obtain ⟨D', g1, g2, gfe, gb⟩ :=
        ih (stepThread ir ck mc st₁ t).1 (stepThread ir ck mc st₂ t).1 hfe
      refine ⟨D ++ D', ?_, ?_, ?_, ?_⟩
      · simp only [stepThreads, Bool.not_eq_true] at *
        rw [if_neg (by simp [hdone]), g1, h1, List.append_assoc]
      · simp only [stepThreads, Bool.not_eq_true] at *
        rw [if_neg (by simp [hdone₂]), g2, h2, List.append_assoc]
      · simp only [stepThreads]
        rw [if_neg (by simp [hdone]), if_neg (by simp [hdone₂])]
        exact gfe
      · simp only [stepThreads]
        rw [if_neg (by simp [hdone]), if_neg (by simp [hdone₂])]
        exact gb

lemma fetchPages_shift (ir ck : Bool) (mc : Option Nat) :
    ∀ (pages : List Page) (st₁ st₂ : FetchSt), st₁.fetched = st₂.fetched →
    ∃ D, (fetchPages ir ck mc st₁ pages).1.collected = st₁.collected ++ D ∧
      (fetchPages ir ck mc st₂ pages).1.collected = st₂.collected ++ D := by
  intro pages
  induction pages with
  | nil =>
    intro st₁ st₂ _
    exact ⟨[], by simp [fetchPages], by simp [fetchPages]⟩
  | cons p rest ih =>
    intro st₁ st₂ hf
    obtain ⟨D, h1, h2, hfe, hb⟩ := stepThreads_shift ir ck mc p.items st₁ st₂ hf
    by_cases hdone : (stepThreads ir ck mc st₁ p.items).2 = true
    · have hdone₂ : (stepThreads ir ck mc st₂ p.items).2 = true := by rw [← hb]; exact hdone
      exact ⟨D, by simp [fetchPages, hdone, h1], by simp [fetchPages, hdone₂, h2]⟩
    · have hdone₂ : ¬(stepThreads ir ck mc st₂ p.items).2 = true := by rw [← hb]; exact hdone
      by_cases htok : tokenTruthy p.nextPageToken = true
      · obtain ⟨D', g1, g2⟩ :=
          ih (stepThreads ir ck mc st₁ p.items).1 (stepThreads ir ck mc st₂ p.items).1 hfe
        refine ⟨D ++ D', ?_, ?_⟩
        · simp only [fetchPages]
          rw [if_neg (by simp [hdone]), if_pos htok, g1, h1, List.append_assoc]
        · simp only [fetchPages]
          rw [if_neg (by simp [hdone₂]), if_pos htok, g2, h2, List.append_assoc]
      · refine ⟨D, ?_, ?_⟩
        · simp only [fetchPages]
          rw [if_neg (by simp [hdone]), if_neg htok]
          exact h1
        · simp only [fetchPages]
          rw [if_neg (by simp [hdone₂]), if_neg htok]
          exact h2

lemma fetch_fst (ir ck : Bool) (mc : Option Nat) (loaded : List ApiRecord)
    (pages : List Page) :
    (fetch_comments_for_video ir mc ck loaded pages).1 =
      (fetchPages ir ck mc ⟨loaded, 0, []⟩ pages).1.collected := by
  by_cases h : (fetchPages ir ck mc ⟨loaded, 0, []⟩ pages).2 = true <;>
    simp [fetch_comments_for_video, h]

/-- C10: resuming from a checkpoint returns the loaded records followed by
the newly fetched ones — the new tail does not depend on what was loaded, so
the `max_comments` cap counts only newly fetched records — and the total
length can therefore exceed `max_comments`: resuming two records with
`max_comments = 1` over a two-comment page returns three records. -/
theorem C10_resume_prepends_and_cap_counts_new_only :
    (∀ (ir : Bool) (mc : Option Nat) (ck : Bool) (loaded : List ApiRecord)
      (pages : List Page),
      (fetch_comments_for_video ir mc ck loaded pages).1 =
        loaded ++ (fetch_comments_for_video ir mc ck [] pages).1) ∧
    (fetch_comments_for_video true (some 1) false [loadedRecord, loadedRecord]
      [twoThreadPage]).1.length = 3 := by
  constructor
  · intro ir mc ck loaded pages
    obtain ⟨D, h1, h2⟩ := fetchPages_shift ir ck mc pages ⟨loaded, 0, []⟩ ⟨[], 0, []⟩ rfl
    rw [fetch_fst, fetch_fst, h1, h2]
    simp
  · decide

end ApiScraper

namespace DomScraper

lemma stagFold_append (h0 : Int) (obs : List Int) (h : Int) :
    stagFold h0 (obs ++ [h]) = stagStep (stagFold h0 obs) h := by
  simp [stagFold, List.foldl_append]

lemma trailRun_append (l : List Int) (h x : Int) (hx : l.getLast? = some x) :
    trailRun (l ++ [h]) = if h = x then trailRun l + 1 else 0 := by
  cases hrev : l.reverse with
  | nil =>
    rw [← List.head?_reverse, hrev] at hx
    exact absurd hx (by simp)
  | cons y rest =>
    have hxy : y = x := by
      rw [← List.head?_reverse, hrev] at hx
      exact Option.some_inj.mp hx
    subst hxy
    have hrl : (l ++ [h]).reverse = h :: y :: rest := by
      rw [List.reverse_append, hrev]
      rfl
    unfold trailRun
    rw [hrl, hrev]
    rfl

lemma stagFold_spec (obs : List Int) (h0 : Int) :
    some (stagFold h0 obs).1 = (h0 :: obs).getLast? ∧
    (stagFold h0 obs).2 = trailRun (h0 :: obs) := by
  induction obs using List.reverseRecOn with
  | nil => exact ⟨rfl, rfl⟩
  | append_singleton obs h ih =>
    have hcons : h0 :: (obs ++ [h]) = (h0 :: obs) ++ [h] := by simp
    have hgl : (h0 :: (obs ++ [h])).getLast? = some h := by
      rw [hcons]
      exact List.getLast?_concat _
    have htr := trailRun_append (h0 :: obs) h (stagFold h0 obs).1 ih.1.symm
    rw [hcons] at *
    rw [stagFold_append]
    constructor
    · rw [hgl]
      by_cases he : h = (stagFold h0 obs).1 <;> simp [stagStep, he]
    · rw [htr, ← ih.2]
      by_cases he : h = (stagFold h0 obs).1 <;> simp [stagStep, he]

lemma trailRun_of_chain (l : List Int) (hc : l.Chain' (· < ·)) : trailRun l = 0 := by
  cases hrev : l.reverse with
  | nil => simp [trailRun, hrev]
  | cons x rest =>
    cases rest with
    | nil => simp [trailRun, hrev, trailRunAux]
    | cons y rest' =>
      have hcr : List.Chain' (flip (· < ·)) l.reverse := by
        rw [List.chain'_reverse]
        exact hc
      rw [hrev] at hcr
      have hyx : y < x := (List.chain'_cons.mp hcr).1
      have hxy : ¬x = y := by omega
      simp [trailRun, hrev, trailRunAux, hxy]

lemma extractLoop_three_stagnant (max : Nat) (expand : Bool) (h0 : Int)
    (rest : List DomStep) (hmax : 0 < max) :
    extractLoop max expand [] [] h0 0
      (⟨[], h0⟩ :: ⟨[], h0⟩ :: ⟨[], h0⟩ :: rest) = ([], rest) := by
  simp [extractLoop, procThreads, hmax]

lemma extractLoop_consumes_all (max : Nat) (expand : Bool) :
    ∀ (steps : List DomStep) (h0 : Int) (stag : Nat), 0 < max →
    (∀ s ∈ steps, s.threads = []) →
    List.Chain (· < ·) h0 (steps.map DomStep.height) →
    extractLoop max expand [] [] h0 stag steps = ([], []) := by
  intro steps
  induction steps with
  | nil => intro h0 stag _ _ _; rfl
  | cons s rest ih =>
    intro h0 stag hmax hth hchain
    have hs : s.threads = [] := hth s (List.mem_cons_self s rest)
    have hlt : h0 < s.height := by
      have := List.chain_cons.mp hchain
      simpa using this.1
    have hne : ¬s.height = h0 := by omega
    have htail : List.Chain (· < ·) s.height (rest.map DomStep.height) := by
      have := List.chain_cons.mp hchain
      simpa using this.2
    simp only [extractLoop, hs, procThreads, hmax, List.length_nil, if_pos hmax,
      if_neg hne]
    exact ih s.height 0 hmax (fun x hx => hth x (List.mem_cons_of_mem s hx)) htail

/-- C8: the stagnation counter is the length of the trailing run of height
observations unchanged from their predecessor; three consecutive unchanged
observations drive it to 3 and break the scroll loop (leaving later
iterations unexecuted); a strictly increasing height sequence keeps the
counter at 0 at every step and never terminates the loop through
stagnation. -/
theorem C8_stagnation_counter :
    (∀ (h0 : Int) (obs : List Int), (stagFold h0 obs).2 = trailRun (h0 :: obs)) ∧
    (∀ h0 : Int, (stagFold h0 [h0, h0, h0]).2 = 3) ∧
    (∀ (max : Nat) (expand : Bool) (h0 : Int) (rest : List DomStep), 0 < max →
      extractLoop max expand [] [] h0 0
        (⟨[], h0⟩ :: ⟨[], h0⟩ :: ⟨[], h0⟩ :: rest) = ([], rest)) ∧
    (∀ (h0 : Int) (obs : List Int), List.Chain (· < ·) h0 obs →
      ∀ n, (stagFold h0 (obs.take n)).2 = 0) ∧
    (∀ (max : Nat) (expand : Bool) (h0 : Int) (steps : List DomStep), 0 < max →
      (∀ s ∈ steps, s.threads = []) →
      List.Chain (· < ·) h0 (steps.map DomStep.height) →
      extractLoop max expand [] [] h0 0 steps = ([], [])) := by
  refine ⟨?_, ?_, ?_, ?_, ?_⟩
  · intro h0 obs
    exact (stagFold_spec obs h0).2
  · intro h0
    rw [(stagFold_spec [h0, h0, h0] h0).2]
    simp [trailRun, trailRunAux]
  · exact extractLoop_three_stagnant
  · intro h0 obs hchain n
    rw [(stagFold_spec (obs.take n) h0).2]
    apply trailRun_of_chain
    have hc : List.Chain' (· < ·) (h0 :: obs) := hchain
    have : h0 :: obs.take n = (h0 :: obs).take (n + 1) := rfl
    rw [this]
    exact hc.take (n + 1)
  · intro max expand h0 steps hmax hth hchain
    exact extractLoop_consumes_all max expand steps h0 0 hmax hth hchain

/-- Witness for C8: a loop over three stagnant iterations (height 7) breaks
with the fourth iteration unexecuted, and a strictly increasing height
sequence keeps the counter at 0. -/
theorem C8_stagnation_counter_witness :
    extractLoop 5 true [] [] 7 0 [⟨[], 7⟩, ⟨[], 7⟩, ⟨[], 7⟩, ⟨[], 9⟩] =
      ([], [⟨[], 9⟩]) ∧
    (stagFold 0 ([1, 2, 3].take 3)).2 = 0 := by
  constructor
  · exact C8_stagnation_counter.2.2.1 5 true 7 [⟨[], 9⟩] (by decide)
  · exact C8_stagnation_counter.2.2.2.1 0 [1, 2, 3]
      (by norm_num [List.chain_cons]) 3

lemma procReplies_len (ptext : String) :
    ∀ (rs : List DomComment) (seen : List (String × String)) (comments : List DomRecord),
    (procReplies ptext seen comments rs).2.length ≤ comments.length + rs.length := by
  intro rs
  induction rs with
  | nil => intro seen comments; simp [procReplies]
  | cons c cs ih =>
    intro seen comments
    by_cases hk : fingerprint c.author c.text ∈ seen
    · simp only [procReplies, if_pos hk]
      calc (procReplies ptext seen comments cs).2.length
          ≤ comments.length + cs.length := ih seen comments
        _ ≤ comments.length + (c :: cs).length := by
            simp only [List.length_cons]; omega
    · simp only [procReplies, if_neg hk]
      calc (procReplies ptext _ (comments ++ [mkReplyDom ptext c]) cs).2.length
          ≤ (comments ++ [mkReplyDom ptext c]).length + cs.length := ih _ _
        _ ≤ comments.length + (c :: cs).length := by
            simp only [List.length_append, List.length_cons, List.length_nil]
            omega

lemma procThreads_len (max R : Nat) (expand : Bool) :
    ∀ (ts : List DomThread) (seen : List (String × String)) (comments : List DomRecord),
    (∀ t ∈ ts, contribBound expand t ≤ R) → comments.length < max →
    (procThreads max expand seen comments ts).2.length ≤ max + R := by
  intro ts
  induction ts with
  | nil =>
    intro seen comments _ hlt
    simpa [procThreads] using Nat.le_trans (Nat.le_of_lt hlt) (Nat.le_add_right _ _)
  | cons t ts ih =>
    intro seen comments hR hlt
    have hRtail : ∀ x ∈ ts, contribBound expand x ≤ R :=
      fun x hx => hR x (List.mem_cons_of_mem t hx)
    cases htop : t.top with
    | none =>
      simp only [procThreads, htop]
      exact ih seen comments hRtail hlt
    | some c =>
      by_cases hk : fingerprint c.author c.text ∈ seen
      · simp only [procThreads, htop, if_pos hk]
        exact ih seen comments hRtail hlt
      · have hr : (if expand then
            procReplies c.text (fingerprint c.author c.text :: seen)
              (comments ++ [mkTopDom c]) t.replies
          else (fingerprint c.author c.text :: seen,
            comments ++ [mkTopDom c])).2.length ≤ comments.length + 1 + R := by
          cases hexp : expand with
          | false => simp
          | true =>
            simp only [if_pos rfl]
            calc (procReplies c.text _ (comments ++ [mkTopDom c]) t.replies).2.length
                ≤ (comments ++ [mkTopDom c]).length + t.replies.length :=
                  procReplies_len c.text t.replies _ _
              _ ≤ comments.length + 1 + R := by
                  have hcb := hR t (List.mem_cons_self t ts)
                  simp only [hexp, contribBound, if_true] at hcb
                  simp only [List.length_append, List.length_singleton]
                  omega
        simp only [procThreads, htop, if_neg hk]
        by_cases hcap : max ≤ (if expand then
            procReplies c.text (fingerprint c.author c.text :: seen)
              (comments ++ [mkTopDom c]) t.replies
          else (fingerprint c.author c.text :: seen,
            comments ++ [mkTopDom c])).2.length
        · rw [if_pos hcap]
          omega
        · rw [if_neg hcap]
          exact ih _ _ hRtail (Nat.lt_of_not_le hcap)

lemma extractLoop_len (max R : Nat) (expand : Bool) :
    ∀ (steps : List DomStep) (seen : List (String × String))
      (comments : List DomRecord) (last : Int) (stag : Nat),
    (∀ s ∈ steps, ∀ t ∈ s.threads, contribBound expand t ≤ R) →
    (extractLoop max expand seen comments last stag steps).1.length ≤
      Nat.max comments.length (max + R) := by
  intro steps
  induction steps with
  | nil =>
    intro seen comments last stag _
    exact Nat.le_max_left _ _
  | cons s rest ih =>
    intro seen comments last stag hR
    have hRs : ∀ t ∈ s.threads, contribBound expand t ≤ R :=
      hR s (List.mem_cons_self s rest)
    have hRtail : ∀ x ∈ rest, ∀ t ∈ x.threads, contribBound expand t ≤ R :=
      fun x hx => hR x (List.mem_cons_of_mem s hx)
    by_cases hlt : comments.length < max
    · have hr : (procThreads max expand seen comments s.threads).2.length ≤ max + R :=
        procThreads_len max R expand s.threads seen comments hRs hlt
      simp only [extractLoop, if_pos hlt]
      by_cases hh : s.height = last
      · rw [if_pos hh]
        by_cases hstag : stag + 1 ≥ 3
        · rw [if_pos hstag]
          exact Nat.le_trans hr (Nat.le_max_right _ _)
        · rw [if_neg hstag]
          refine Nat.le_trans (ih _ _ _ _ hRtail) ?_
          exact Nat.max_le.mpr ⟨Nat.le_trans hr (Nat.le_max_right _ _),
            Nat.le_max_right _ _⟩
      · rw [if_neg hh]
        refine Nat.le_trans (ih _ _ _ _ hRtail) ?_
        exact Nat.max_le.mpr ⟨Nat.le_trans hr (Nat.le_max_right _ _),
          Nat.le_max_right _ _⟩
    · simp only [extractLoop, if_neg hlt]
      exact Nat.le_max_left _ _

/-- C7 counterexample: with `max_comments = 1` and reply expansion on, a
single thread carrying one reply makes `extract_comments_detailed` return
two records — more than `max_comments` — because the cap is only checked
after a thread's top-level comment and all its revealed replies were
appended. -/
theorem C7_counterexample_cap_exceeded :
    (extract_comments_detailed 1 true 0 [capStep]).length = 2 ∧
    ¬((extract_comments_detailed 1 true 0 [capStep]).length ≤ 1) := by
  decide

/-- C7 amended: the scroll-and-extract loop stops at the first thread
boundary at which the count reaches the cap.  Without reply expansion the
result indeed holds at most `max_comments` records; with reply expansion the
result may overshoot by the final thread's replies, and is bounded by
`max_comments + R` whenever every rendered thread carries at most `R`
replies. -/
theorem C7_cap_at_thread_granularity :
    (∀ (max : Nat) (h0 : Int) (steps : List DomStep),
      (extract_comments_detailed max false h0 steps).length ≤ max) ∧
    (∀ (max R : Nat) (expand : Bool) (h0 : Int) (steps : List DomStep),
      (∀ s ∈ steps, ∀ t ∈ s.threads, t.replies.length ≤ R) →
      (extract_comments_detailed max expand h0 steps).length ≤ max + R) := by
  constructor
  · intro max h0 steps
    have h := extractLoop_len max 0 false steps [] [] h0 0
      (fun s _ t _ => by simp [contribBound])
    simpa using h
  · intro max R expand h0 steps hR
    have h := extractLoop_len max R expand steps [] [] h0 0
      (fun s hs t ht => by
        cases hexp : expand with
        | false => simp [contribBound]
        | true => simpa [contribBound] using hR s hs t ht)
    simpa using h

/-- Witness for the amended C7: on the counterexample input (cap 1, one
thread with one reply) the result stays within `max_comments + R = 2`. -/
theorem C7_cap_at_thread_granularity_witness :
    (extract_comments_detailed 1 true 0 [capStep]).length ≤ 1 + 1 :=
  C7_cap_at_thread_granularity.2 1 1 true 0 [capStep] (by decide)

end DomScraper

namespace ApiScraper

lemma apiLinkedAux_append :
    ∀ (l : List ApiRecord) (tops : List (Option String)) (l' : List ApiRecord),
    ApiLinkedAux tops (l ++ l') ↔ ApiLinkedAux tops l ∧ ApiLinkedAux (apiTops tops l) l' := by
  intro l
  induction l with
  | nil => intro tops l'; simp [ApiLinkedAux, apiTops]
  | cons r l ih =>
    intro tops l'
    have e1 : ApiLinkedAux tops ((r :: l) ++ l') =
        ((∀ p, r.parent_id = some p → some p ∈ tops) ∧
          ApiLinkedAux (if r.parent_id = none then r.comment_id :: tops else tops)
            (l ++ l')) := rfl
    have e2 : ApiLinkedAux tops (r :: l) =
        ((∀ p, r.parent_id = some p → some p ∈ tops) ∧
          ApiLinkedAux (if r.parent_id = none then r.comment_id :: tops else tops) l) := rfl
    have e3 : apiTops tops (r :: l) =
        apiTops (if r.parent_id = none then r.comment_id :: tops else tops) l := rfl
    rw [e1, e2, e3, ih, and_assoc]

lemma apiLinkedAux_mono :
    ∀ (l : List ApiRecord) (tops tops' : List (Option String)),
    tops ⊆ tops' → ApiLinkedAux tops l → ApiLinkedAux tops' l := by
  intro l
  induction l with
  | nil => intro tops tops' _ _; trivial
  | cons r l ih =>
    intro tops tops' hsub h
    have h2 : ApiLinkedAux (if r.parent_id = none then r.comment_id :: tops else tops) l :=
      h.2
    refine ⟨fun p hp => hsub (h.1 p hp), ?_⟩
    show ApiLinkedAux (if r.parent_id = none then r.comment_id :: tops' else tops') l
    by_cases hr : r.parent_id = none
    · rw [if_pos hr] at h2 ⊢
      exact ih _ _ (List.cons_subset_cons _ hsub) h2
    · rw [if_neg hr] at h2 ⊢
      exact ih _ _ hsub h2

lemma apiLinkedAux_replies (pid : Option String) :
    ∀ (rs : List Reply) (tops : List (Option String)),
    (∀ p, pid = some p → some p ∈ tops) →
    ApiLinkedAux tops (rs.map (mkReplyRecord pid)) := by
  intro rs
  induction rs with
  | nil => intro tops _; trivial
  | cons r rs ih =>
    intro tops hmem
    refine ⟨hmem, ?_⟩
    show ApiLinkedAux
      (if (mkReplyRecord pid r).parent_id = none
        then (mkReplyRecord pid r).comment_id :: tops else tops)
      (rs.map (mkReplyRecord pid))
    by_cases hn : (mkReplyRecord pid r).parent_id = none
    · rw [if_pos hn]
      refine ih _ (fun p hp => ?_)
      exact List.mem_cons_of_mem _ (hmem p hp)
    · rw [if_neg hn]
      exact ih _ hmem

lemma apiLinkedAux_block (t : Thread) (tops : List (Option String)) :
    ApiLinkedAux tops
      (mkTopRecord t :: t.replies.map (mkReplyRecord (mkTopRecord t).comment_id)) := by
  refine ⟨fun p hp => ?_, ?_⟩
  · exact absurd hp (by simp [mkTopRecord])
  · show ApiLinkedAux
      (if (mkTopRecord t).parent_id = none then (mkTopRecord t).comment_id :: tops else tops)
      (t.replies.map (mkReplyRecord (mkTopRecord t).comment_id))
    rw [if_pos (by simp [mkTopRecord])]
    exact apiLinkedAux_replies _ t.replies _
      (fun p hp => by rw [← hp]; exact List.mem_cons_self _ _)

lemma stepThread_linked (ir ck : Bool) (mc : Option Nat) (st : FetchSt) (t : Thread)
    (h : ApiLinked st.collected) :
    ApiLinked (stepThread ir ck mc st t).1.collected := by
  have hblock1 : ApiLinked (st.collected ++ [mkTopRecord t]) := by
    rw [ApiLinked, apiLinkedAux_append]
    exact ⟨h, ⟨fun p hp => absurd hp (by simp [mkTopRecord]), trivial⟩⟩
  have hblock2 : ApiLinked (st.collected ++
      (mkTopRecord t :: t.replies.map (mkReplyRecord (mkTopRecord t).comment_id))) := by
    rw [ApiLinked, apiLinkedAux_append]
    exact ⟨h, apiLinkedAux_block t _⟩
  cases ir with
  | false => simpa [stepThread] using hblock1
  | true =>
    by_cases hcap : capReached mc (st.fetched + 1 + t.replies.length) = true <;>
      simpa [stepThread, hcap] using hblock2

lemma stepThreads_linked (ir ck : Bool) (mc : Option Nat) :
    ∀ (ts : List Thread) (st : FetchSt), ApiLinked st.collected →
    ApiLinked (stepThreads ir ck mc st ts).1.collected := by
  intro ts
  induction ts with
  | nil => intro st h; simpa [stepThreads] using h
  | cons t ts ih =>
    intro st h
    have h1 := stepThread_linked ir ck mc st t h
    by_cases hdone : (stepThread ir ck mc st t).2 = true
    · simpa [stepThreads, hdone] using h1
    · simp only [stepThreads]
      rw [if_neg (by simp [hdone])]
      exact ih _ h1

lemma fetchPages_linked (ir ck : Bool) (mc : Option Nat) :
    ∀ (pages : List Page) (st : FetchSt), ApiLinked st.collected →
    ApiLinked (fetchPages ir ck mc st pages).1.collected := by
  intro pages
  induction pages with
  | nil => intro st h; simpa [fetchPages] using h
  | cons p rest ih =>
    intro st h
    have h1 := stepThreads_linked ir ck mc p.items st h
    by_cases hdone : (stepThreads ir ck mc st p.items).2 = true
    · simpa [fetchPages, hdone] using h1
    · by_cases htok : tokenTruthy p.nextPageToken = true
      · simp only [fetchPages]
        rw [if_neg (by simp [hdone]), if_pos htok]
        exact ih _ h1
      · simp only [fetchPages]
        rw [if_neg (by simp [hdone]), if_neg htok]
        exact h1

end ApiScraper

namespace DomScraper

lemma domTops_append :
    ∀ (l : List DomRecord) (tops : List String) (l' : List DomRecord),
    domTops tops (l ++ l') = domTops (domTops tops l) l' := by
  intro l
  induction l with
  | nil => intro tops l'; rfl
  | cons r l ih => intro tops l'; exact ih _ l'

lemma domLinkedAux_append :
    ∀ (l : List DomRecord) (tops : List String) (l' : List DomRecord),
    DomLinkedAux tops (l ++ l') ↔ DomLinkedAux tops l ∧ DomLinkedAux (domTops tops l) l' := by
  intro l
  induction l with
  | nil => intro tops l'; simp [DomLinkedAux, domTops]
  | cons r l ih =>
    intro tops l'
    have e1 : DomLinkedAux tops ((r :: l) ++ l') =
        ((r.is_reply = true → ∃ t ∈ tops, r.parent = some t) ∧
          DomLinkedAux (if r.is_reply then tops else r.text :: tops) (l ++ l')) := rfl
    have e2 : DomLinkedAux tops (r :: l) =
        ((r.is_reply = true → ∃ t ∈ tops, r.parent = some t) ∧
          DomLinkedAux (if r.is_reply then tops else r.text :: tops) l) := rfl
    have e3 : domTops tops (r :: l) =
        domTops (if r.is_reply then tops else r.text :: tops) l := rfl
    rw [e1, e2, e3, ih, and_assoc]

lemma procReplies_linked (ptext : String) :
    ∀ (rs : List DomComment) (seen : List (String × String)) (comments : List DomRecord),
    DomLinked comments → ptext ∈ domTops [] comments →
    DomLinked (procReplies ptext seen comments rs).2 ∧
      domTops [] (procReplies ptext seen comments rs).2 = domTops [] comments := by
  intro rs
  induction rs with
  | nil => intro seen comments h hmem; exact ⟨h, rfl⟩
  | cons c cs ih =>
    intro seen comments h hmem
    by_cases hk : fingerprint c.author c.text ∈ seen
    · simp only [procReplies, if_pos hk]
      exact ih seen comments h hmem
    · simp only [procReplies, if_neg hk]
      have hlink : DomLinked (comments ++ [mkReplyDom ptext c]) := by
        rw [DomLinked, domLinkedAux_append]
        exact ⟨h, ⟨fun _ => ⟨ptext, hmem, rfl⟩, trivial⟩⟩
      have htops : domTops [] (comments ++ [mkReplyDom ptext c]) = domTops [] comments := by
        rw [domTops_append]
        rfl
      have := ih (fingerprint c.author c.text :: seen)
        (comments ++ [mkReplyDom ptext c]) hlink (htops ▸ hmem)
      exact ⟨this.1, this.2.trans htops⟩

lemma procThreads_linked (max : Nat) (expand : Bool) :
    ∀ (ts : List DomThread) (seen : List (String × String)) (comments : List DomRecord),
    DomLinked comments → DomLinked (procThreads max expand seen comments ts).2 := by
  intro ts
  induction ts with
  | nil => intro seen comments h; exact h
  | cons t ts ih =>
    intro seen comments h
    cases htop : t.top with
    | none =>
      simp only [procThreads, htop]
      exact ih seen comments h
    | some c =>
      by_cases hk : fingerprint c.author c.text ∈ seen
      · simp only [procThreads, htop, if_pos hk]
        exact ih seen comments h
      · simp only [procThreads, htop, if_neg hk]
        have hlink : DomLinked (comments ++ [mkTopDom c]) := by
          rw [DomLinked, domLinkedAux_append]
          exact ⟨h, ⟨fun hr => absurd hr (by simp [mkTopDom]), trivial⟩⟩
        have hmem : c.text ∈ domTops [] (comments ++ [mkTopDom c]) := by
          rw [domTops_append]
          show c.text ∈ domTops (domTops [] comments) [mkTopDom c]
          have : domTops (domTops [] comments) [mkTopDom c] =
              c.text :: domTops [] comments := rfl
          rw [this]
          exact List.mem_cons_self _ _
        have hr : DomLinked (if expand then
            procReplies c.text (fingerprint c.author c.text :: seen)
              (comments ++ [mkTopDom c]) t.replies
          else (fingerprint c.author c.text :: seen, comments ++ [mkTopDom c])).2 := by
          cases hexp : expand with
          | false => simpa using hlink
          | true =>
            simp only [if_pos rfl]
            exact (procReplies_linked c.text t.replies _ _ hlink hmem).1
        by_cases hcap : max ≤ (if expand then
            procReplies c.text (fingerprint c.author c.text :: seen)
              (comments ++ [mkTopDom c]) t.replies
          else (fingerprint c.author c.text :: seen, comments ++ [mkTopDom c])).2.length
        · rw [if_pos hcap]
          exact hr
        · rw [if_neg hcap]
          exact ih _ _ hr

lemma extractLoop_linked (max : Nat) (expand : Bool) :
    ∀ (steps : List DomStep) (seen : List (String × String))
      (comments : List DomRecord) (last : Int) (stag : Nat),
    DomLinked comments →
    DomLinked (extractLoop max expand seen comments last stag steps).1 := by
  intro steps
  induction steps with
  | nil => intro seen comments last stag h; exact h
  | cons s rest ih =>
    intro seen comments last stag h
    by_cases hlt : comments.length < max
    · have hp := procThreads_linked max expand s.threads seen comments h
      simp only [extractLoop, if_pos hlt]
      by_cases hh : s.height = last
      · rw [if_pos hh]
        by_cases hstag : stag + 1 ≥ 3
        · rw [if_pos hstag]
          exact hp
        · rw [if_neg hstag]
          exact ih _ _ _ _ hp
      · rw [if_neg hh]
        exact ih _ _ _ _ hp
    · simp only [extractLoop, if_neg hlt]
      exact h

end DomScraper

/-- C9: in both engines' output, every reply record points at a top-level
record emitted earlier in the same returned sequence — by `comment_id` for
API-sourced replies (non-null `parent_id`), by the parent's raw text for
DOM-sourced replies (`is_reply = true`). -/
theorem C9_reply_parent_linkage :
    (∀ (include_replies : Bool) (max_comments : Option Nat) (ckpt : Bool)
      (pages : List ApiScraper.Page),
      ApiScraper.ApiLinked
        (ApiScraper.fetch_comments_for_video include_replies max_comments ckpt [] pages).1) ∧
    (∀ (max_comments : Nat) (expand_replies : Bool) (initial_height : Int)
      (steps : List DomScraper.DomStep),
      DomScraper.DomLinked
        (DomScraper.extract_comments_detailed max_comments expand_replies
          initial_height steps)) := by
  constructor
  · intro ir mc ck pages
    rw [ApiScraper.fetch_fst]
    exact ApiScraper.fetchPages_linked ir ck mc pages ⟨[], 0, []⟩ trivial
  · intro max expand h0 steps
    exact DomScraper.extractLoop_linked max expand steps [] [] h0 0 trivial

namespace Batch

lemma run_engine_rows_ne_nil (engine : Engine) (url : String)
    (apiRes domRes : EngineResult) :
    (run_engine_for_url engine url apiRes domRes).rows ≠ [] := by
  by_cases hs : (engineSelect engine apiRes domRes).1 = [] <;>
    simp [run_engine_for_url, hs]

lemma batch_foldl (engine : Engine) (apiRes domRes : String → EngineResult) :
    ∀ (urls : List String) (acc : List (String × String)) (n : Nat),
    urls.foldl (batchStep engine apiRes domRes) (acc, n) =
      (acc ++ (urls.map
        (fun u => (run_engine_for_url engine u (apiRes u) (domRes u)).rows)).flatten,
       n + (urls.map
        (fun u => (run_engine_for_url engine u (apiRes u) (domRes u)).count)).sum) := by
  intro urls
  induction urls with
  | nil => intro acc n; simp
  | cons u us ih =>
    intro acc n
    simp only [List.foldl_cons, batchStep, ih, List.map_cons, List.flatten_cons,
      List.sum_cons]
    rw [List.append_assoc, Nat.add_assoc]

/-- C2: on a non-empty target list, `run_batch_with_engine` returns normally
with exactly one header row followed, target by target in order, by that
target's rows; every target contributes at least one row — its comment rows
when the engine selection yielded comments, otherwise exactly one placeholder
row carrying the captured error text or the `"(no comments found)"` marker —
engine failures being values of the per-target selection, never an abort; and
the returned total is the sum of the per-target comment counts. -/
theorem C2_batch_one_header_then_rows_per_target :
    ∀ (urls : List String) (engine : Engine) (apiRes domRes : String → EngineResult),
    urls ≠ [] →
    run_batch_with_engine urls engine apiRes domRes =
      .ok (headerRow :: (urls.map
            (fun u => (run_engine_for_url engine u (apiRes u) (domRes u)).rows)).flatten,
          (urls.map
            (fun u => (run_engine_for_url engine u (apiRes u) (domRes u)).count)).sum) ∧
    (∀ (u : String) (a d : EngineResult), (run_engine_for_url engine u a d).rows ≠ []) ∧
    (∀ (u : String) (a d : EngineResult), (engineSelect engine a d).1 ≠ [] →
      (run_engine_for_url engine u a d).rows =
        (engineSelect engine a d).1.map (fun c => (u, c))) ∧
    (∀ (u : String) (a d : EngineResult), (engineSelect engine a d).1 = [] →
      (run_engine_for_url engine u a d).rows =
        [(u, placeholderCell (engineSelect engine a d).2)]) ∧
    (∀ (u : String) (a d : EngineResult),
      (run_engine_for_url engine u a d).count = (engineSelect engine a d).1.length) := by
  intro urls engine apiRes domRes hne
  refine ⟨?_, ?_, ?_, ?_, ?_⟩
  · simp only [run_batch_with_engine, if_neg hne,
      batch_foldl engine apiRes domRes urls [headerRow] 0]
    simp
  · intro u a d
    exact run_engine_rows_ne_nil engine u a d
  · intro u a d hs
    simp [run_engine_for_url, hs]
  · intro u a d hs
    simp [run_engine_for_url, hs]
  · intro u a d
    rfl

/-- Witness for C2: a two-target batch where the API engine always raises and
the selenium engine succeeds only on the first target yields the header, one
comment row, one placeholder row carrying the captured error, and total 1. -/
theorem C2_batch_one_header_then_rows_per_target_witness :
    run_batch_with_engine ["u1", "u2"] .both failingApi mixedDom =
      .ok ([headerRow, ("u1", "a"), ("u2", "ERROR: boom")], 1) := by
  rw [(C2_batch_one_header_then_rows_per_target ["u1", "u2"] .both failingApi mixedDom
    (by simp)).1]
  rfl

/-- C6: in mode `'both'` the API engine runs first and the selenium engine
runs exactly when the API attempt raised or produced zero records; when the
API attempt raises and the selenium engine returns `n > 0` records, the
target gets exactly those `n` comment rows, no placeholder row, and the call
returns normally. -/
theorem C6_both_mode_fallback :
    (∀ (url : String) (apiRes domRes : EngineResult),
      ((run_engine_for_url .both url apiRes domRes).domInvoked = true ↔
        (apiRes = .ok [] ∨ ∃ e, apiRes = .error e))) ∧
    (∀ (url e : String) (ds : List String), ds ≠ [] →
      run_engine_for_url .both url (.error e) (.ok ds) =
        ⟨ds.map (fun c => (url, c)), ds.length, true⟩) := by
  constructor
  · intro url apiRes domRes
    cases apiRes with
    | ok cs => simp [run_engine_for_url, domCond]
    | error e => simp [run_engine_for_url, domCond]
  · intro url e ds hds
    simp [run_engine_for_url, engineSelect, domCond, hds]

/-- Witness for C6: API raising `MissingCredential` with a five-record
selenium result yields five comment rows, no placeholder, `domInvoked`. -/
theorem C6_both_mode_fallback_witness :
    run_engine_for_url .both "u" (.error "MissingCredential")
        (.ok ["c1", "c2", "c3", "c4", "c5"]) =
      ⟨[("u", "c1"), ("u", "c2"), ("u", "c3"), ("u", "c4"), ("u", "c5")], 5, true⟩ := by
  have h := C6_both_mode_fallback.2 "u" "MissingCredential"
    ["c1", "c2", "c3", "c4", "c5"] (by decide)
  simpa using h

end Batch
